import Mathlib

/-!
Verification of the salt provisioner plugin core
(provisioner/salt/provisioner.go) against its natural-language
specification.  Go strings are modelled as Lean `String`s (char lists);
Go maps with string keys as association lists looked up with the Go
zero-value default `""`; `fmt.Sprintf` with `%s` verbs as positional
substitution; the remote executor's outcome as `Except` over the exit
status.
-/

namespace Salt

/-- Fuel-driven scanner for greedy leftmost replacement; the fuel bounds
the number of characters still to consume, so the recursion is
structural and kernel-reducible. -/
def replaceAllGo (pat rep : List Char) : Nat → List Char → List Char
  | _, [] => []
  | 0, l => l
  | fuel + 1, c :: rest =>
    if pat.isPrefixOf (c :: rest) then
      rep ++ replaceAllGo pat rep fuel (rest.drop (pat.length - 1))
    else
      c :: replaceAllGo pat rep fuel rest

/-- Greedy leftmost replacement of every occurrence of `pat` by `rep`,
modelling Go `strings.Replace(s, pat, rep, -1)` / `strings.ReplaceAll`
for a non-empty pattern. -/
def replaceAll (pat rep l : List Char) : List Char :=
  replaceAllGo pat rep l.length l

/-- String wrapper for `replaceAll`. -/
def replaceAllStr (s pat rep : String) : String :=
  ⟨replaceAll pat.data rep.data s.data⟩

/-- Fuel-driven scanner for greedy leftmost splitting; structural and
kernel-reducible as for `replaceAllGo`. -/
def splitOnSepGo (pat : List Char) : Nat → List Char → List (List Char)
  | _, [] => [[]]
  | 0, l => [l]
  | fuel + 1, c :: rest =>
    if pat.isPrefixOf (c :: rest) then
      [] :: splitOnSepGo pat fuel (rest.drop (pat.length - 1))
    else
      List.modifyHead (fun p => c :: p) (splitOnSepGo pat fuel rest)

/-- Greedy leftmost splitting on a non-empty separator, modelling Go
`strings.Split(s, sep)` (the result pieces, separators removed). -/
def splitOnSep (pat l : List Char) : List (List Char) :=
  splitOnSepGo pat l.length l

/-- Positional `%s` substitution, modelling `fmt.Sprintf` restricted to
format strings whose only verbs are `%s` (the only kind this plugin
uses). -/
def sprintfS : List Char → List String → List Char
  | [], _ => []
  | '%' :: 's' :: rest, args =>
    (match args with
     | [] => "%!s(MISSING)".data
     | a :: _ => a.data) ++ sprintfS rest args.tail
  | c :: rest, args => c :: sprintfS rest args

/-- String wrapper for `sprintfS`. -/
def sprintf (fmt : String) (args : List String) : String :=
  ⟨sprintfS fmt.data args⟩

/-- Association-list lookup returning the Go map zero value `""` when
the key is absent. -/
def lookupD (m : List (String × String)) (k : String) : String :=
  match m.find? (fun p => p.1 == k) with
  | some p => p.2
  | none => ""

/-- The `saltConfigMap` package variable. -/
def saltConfigMap : List (String × String) :=
  [ ("configStateDir_linux", "/tmp/packer-provisioner-salt"),
    ("configStateDir_windows", "C:/Windows/Temp/packer-provisioner-salt"),
    ("configPillarDir_linux", "/tmp/packer-provisioner-salt-pillar"),
    ("configPillarDir_windows", "C:/Windows/Temp/packer-provisioner-salt-pillar"),
    ("configEnvFormat_linux", "%s='%s' "),
    ("configEnvFormat_windows", "%s='%s' ") ]

/-- The `saltCommandMap` package variable. -/
def saltCommandMap : List (String × String) :=
  [ ("cmdCreateDir_linux", "mkdir -p '%s'"),
    ("cmdCreateDir_windows", "PowerShell -ExecutionPolicy Bypass -OutputFormat Text -Command \x7bNew-Item -ItemType Directory -Path %s -Force\x7d"),
    ("cmdDeleteDir_linux", "rm -rf '%s'"),
    ("cmdDeleteDir_windows", "PowerShell -ExecutionPolicy Bypass -OutputFormat Text -Command \x7bRemove-Item -Recurse -Force %s\x7d"),
    ("cmdSaltCall_linux", "sudo %ssalt-call --local --file-root=%s state.apply %s"),
    ("cmdSaltCall_windows", "%ssalt-call --local --file-root=%s state.apply %s"),
    ("cmdSaltCallPillar_linux", "sudo %ssalt-call --local --file-root=%s --pillar-root=%s state.apply %s"),
    ("cmdSaltCallPillar_windows", "%ssalt-call --local --file-root=%s --pillar-root=%s state.apply %s") ]

/-- `getCommand`: the method body is
`saltCommandMap[valueName + "_" + p.config.TargetOS]`. -/
def getCommand (targetOS valueName : String) : String :=
  lookupD saltCommandMap (valueName ++ "_" ++ targetOS)

/-- `getConfig`: the method body is
`saltConfigMap[valueName + "_" + p.config.TargetOS]`. -/
def getConfig (targetOS valueName : String) : String :=
  lookupD saltConfigMap (valueName ++ "_" ++ targetOS)

/-- ASCII lower-casing of one character, modelling Go
`strings.ToLower` on the ASCII inputs the provisioner deals with. -/
def lowerChar (c : Char) : Char :=
  if 'A' ≤ c ∧ c ≤ 'Z' then Char.ofNat (c.toNat + 32) else c

/-- Modelling `strings.ToLower` for ASCII strings. -/
def goToLower (s : String) : String :=
  ⟨s.data.map lowerChar⟩

/-- The `target_os` defaulting logic of `Prepare`:
empty input becomes `"linux"`, anything else is lower-cased. -/
def prepTargetOS (s : String) : String :=
  if s = "" then "linux" else goToLower s

/-- The user-facing configuration fields consumed by the provisioning
core (the `Config` struct), after `Prepare`'s defaulting has run. -/
structure Config where
  targetOS : String
  stateFiles : List String
  stateTree : String
  stateDir : String
  pillarFiles : List String
  pillarTree : String
  pillarDir : String
  envVars : List String

/-- The command issued by `createDir`:
`fmt.Sprintf("mkdir -p '%s'", dir)` — hard-coded, not taken from
`saltCommandMap`. -/
def createDirCommand (dir : String) : String :=
  sprintf "mkdir -p '%s'" [dir]

/-- The command issued by `removeDir`:
`fmt.Sprintf("rm -rf '%s'", dir)` — hard-coded, not taken from
`saltCommandMap`. -/
def removeDirCommand (dir : String) : String :=
  sprintf "rm -rf '%s'" [dir]

/-- Substitution of a directory path into the OS profile's
create-directory template (what the spec says `createDir` does). -/
def renderCreateDirTemplate (targetOS dir : String) : String :=
  sprintf (getCommand targetOS "cmdCreateDir") [dir]

/-- Substitution of a directory path into the OS profile's
delete-directory template (what the spec says `removeDir` does). -/
def renderDeleteDirTemplate (targetOS dir : String) : String :=
  sprintf (getCommand targetOS "cmdDeleteDir") [dir]

/-- `stateName := strings.ReplaceAll(stateFile, ".sls", "")` from
`executeSaltState`. -/
def stateName (stateFile : String) : String :=
  replaceAllStr stateFile ".sls" ""

/-- The remote command built by `executeSaltState`: the template is
`cmdSaltCallPillar` when `len(p.config.PillarTree) > 0` and
`cmdSaltCall` otherwise, with the matching argument vector. -/
def saltApplyCommand (c : Config) (envVars stateFile : String) : String :=
  if c.pillarTree.length > 0 then
    sprintf (getCommand c.targetOS "cmdSaltCallPillar")
      [envVars, c.stateDir, c.pillarDir, stateName stateFile]
  else
    sprintf (getCommand c.targetOS "cmdSaltCall")
      [envVars, c.stateDir, stateName stateFile]

/-- The state-file arguments `executeSalt` hands to `executeSaltState`,
one per configured state file, or a single empty string when no
discrete state files are configured (tree/highstate mode).  After a
successful `Prepare`, `p.stateFiles` equals `p.config.StateFiles`. -/
def executeSaltStateArgs (c : Config) : List String :=
  if c.stateFiles.length ≠ 0 then c.stateFiles else [""]

/-- The full list of apply commands issued by `executeSalt`. -/
def executeSaltCommands (c : Config) (envVars : String) : List String :=
  (executeSaltStateArgs c).map (saltApplyCommand c envVars)

/-- `strings.SplitN(kv, "=", 2)[0]` for an entry: the characters before
the first `=` (the whole string when no `=` occurs). -/
def splitN2Key (s : String) : String :=
  ⟨s.data.takeWhile (fun c => c ≠ '=')⟩

/-- `strings.SplitN(kv, "=", 2)[1]` for an entry containing `=`: the
characters after the first `=`.  (In Go an entry without `=` would make
the index panic; `Prepare` validation rules such entries out, and this
model returns `""` for them.) -/
def splitN2Val (s : String) : String :=
  ⟨(s.data.dropWhile (fun c => c ≠ '=')).tail⟩

/-- The value escaping of `escapeEnvVars`:
`strings.Replace(value, "'", `'"'"'`, -1)`. -/
def escQuote (v : String) : String :=
  replaceAllStr v "'" "'\"'\"'"

/-- Reversal of the quote-escaping transform (the spec's decode
direction): replace every occurrence of `'"'"'` back by `'`. -/
def unescQuote (v : String) : String :=
  replaceAllStr v "'\"'\"'" "'"

/-- Insert-or-overwrite into an association list, modelling assignment
`envVars[key] = value` on a Go map (later assignments to the same key
overwrite the earlier value). -/
def updateAssoc (m : List (String × String)) (k v : String) :
    List (String × String) :=
  if m.any (fun p => p.1 == k) then
    m.map (fun p => if p.1 == k then (p.1, v) else p)
  else
    m ++ [(k, v)]

/-- The map built by the loop of `escapeEnvVars`: keys from
`SplitN(.., "=", 2)[0]`, values escaped with `escQuote`. -/
def envMapOf (entries : List String) : List (String × String) :=
  entries.foldl (fun m kv => updateAssoc m (splitN2Key kv) (escQuote (splitN2Val kv))) []

/-- Lexicographic order on character lists by code point, which agrees
with Go's byte-wise string order on UTF-8 since UTF-8 preserves
code-point order. -/
def leChars : List Char → List Char → Bool
  | [], _ => true
  | _ :: _, [] => false
  | a :: as, b :: bs => if a = b then leChars as bs else decide (a < b)

/-- Key order used by `sort.Strings(keys)` in `escapeEnvVars`. -/
def keyLe (p q : String × String) : Prop := leChars p.1.data q.1.data = true

instance : DecidableRel keyLe :=
  fun p q => inferInstanceAs (Decidable (leChars p.1.data q.1.data = true))

/-- The result of `escapeEnvVars`, represented as the association list
of (sorted key, escaped value) pairs.  The Go function returns the
sorted key list plus the map; since each key occurs once, sorting the
pairs by key carries exactly the same information. -/
def escapeEnvVars (entries : List String) : List (String × String) :=
  List.insertionSort keyLe (envMapOf entries)

/-- The default environment-variable format, `configEnvFormat` for both
OS profiles: `"%s='%s' "`. -/
def defaultEnvFormat : String := "%s='%s' "

/-- The flattening loop of `createFlattenedEnvVars`:
`flattened += fmt.Sprintf(p.config.EnvVarFormat, key, envVars[key])`
over the sorted keys, with a caller-chosen format. -/
def createFlattenedEnvVarsFmt (fmt : String) (entries : List String) : String :=
  (escapeEnvVars entries).foldl (fun acc p => acc ++ sprintf fmt [p.1, p.2]) ""

/-- `createFlattenedEnvVars` with the default format (what a prepared
configuration uses unless `env_var_format` was overridden). -/
def createFlattenedEnvVars (entries : List String) : String :=
  createFlattenedEnvVarsFmt defaultEnvFormat entries

/-- The separator that terminates each `KEY='VALUE' ` token of the
default format: a closing single quote followed by a space. -/
def sepTok : List Char := ['\'', ' ']

/-- The `KEY`/`VALUE` divider of the default format: `='`. -/
def eqTok : List Char := ['=', '\'']

/-- Split a character list at the first occurrence of `pat`, returning
the parts before and after it, or `none` when `pat` does not occur. -/
def splitFirst (pat : List Char) : List Char → Option (List Char × List Char)
  | [] => if pat.isEmpty then some ([], []) else none
  | c :: rest =>
    if pat.isPrefixOf (c :: rest) then
      some ([], rest.drop (pat.length - 1))
    else
      (splitFirst pat rest).map (fun q => (c :: q.1, q.2))

/-- Modelled from the spec: decoding one `KEY='VALUE` token (its
trailing `' ` already removed by the splitting) by cutting at the first
`='` and reversing the quote-escaping transform on the value part. -/
def parseToken (t : List Char) : Option (String × String) :=
  match splitFirst eqTok t with
  | none => none
  | some q => some (⟨q.1⟩, unescQuote ⟨q.2⟩)

/-- Modelled from the spec: "re-decoding by splitting on the configured
format": split the flattened string on the token-terminating `' `
sequence (which must also terminate the whole string), then decode each
token with `parseToken`.  No such decoder exists in the source; the
spec asserts its existence as a round-trip property. -/
def decodeFlattened (s : String) : Option (List (String × String)) :=
  if (splitOnSep sepTok s.data).getLast? = some [] then
    ((splitOnSep sepTok s.data).dropLast).mapM parseToken
  else
    none

/-- Exit-status interpretation of `executeSaltState` after
`cmd.RunWithUi`: a transport error is returned as-is; exit status `0`
is success; `127` produces the "could not be found" message naming the
command; any other status produces `"non-zero exit status: <n>"`. -/
def interpretSaltExit (command : String) : Except String Nat → Except String Unit
  | .error e => .error e
  | .ok status =>
    if status = 0 then .ok ()
    else if status = 127 then
      .error (command ++ " could not be found, verify that it is available on the path after connecting to the machine")
    else
      .error ("non-zero exit status: " ++ toString status)

/-- Go `path/filepath.ToSlash` parametrised by the local OS separator:
the identity when the separator is already `/`, otherwise every
separator character is replaced by `/`. -/
def toSlash (sep : Char) (s : String) : String :=
  if sep = '/' then s else ⟨s.data.map (fun c => if c = sep then '/' else c)⟩

/-- Modelled from Go `path/filepath.Clean`, restricted to paths free of
`.`/`..` components, empty components and duplicated separators (the
only inputs the claims evaluate): on such inputs Clean only rewrites
forward slashes to the separator on a backslash-separator host and is
the identity elsewhere. -/
def goClean (sep : Char) (s : String) : String :=
  if sep = '\\' then ⟨s.data.map (fun c => if c = '/' then '\\' else c)⟩ else s

/-- Go `path/filepath.Join` for two elements, parametrised by the local
OS separator: non-empty elements joined by the separator, then cleaned
(`goClean`, see its restriction). -/
def goJoin (sep : Char) (a b : String) : String :=
  if a = "" then goClean sep b
  else if b = "" then goClean sep a
  else goClean sep (a ++ ⟨[sep]⟩ ++ b)

/-- The remote destination computed by `uploadSingleFile`:
`filepath.ToSlash(filepath.Join(uploadDir, uploadFile))`, on a host
whose path separator is `sep`. -/
def remoteFilePath (sep : Char) (uploadDir uploadFile : String) : String :=
  toSlash sep (goJoin sep uploadDir uploadFile)

/-- What the local filesystem reports for a path, for modelling the
`os.Stat`-based checks of `Prepare`. -/
inductive FSEntry where
  | missing
  | file
  | dir
deriving DecidableEq

/-- `validateFileConfig`: a missing path or a directory is an error.
The code embeds the text of the `os.Stat` error; the model uses a fixed
marker for it. -/
def validateFileConfig (fs : String → FSEntry) (path cfg : String) : Option String :=
  match fs path with
  | .missing => some (cfg ++ ": " ++ path ++ " invalid: stat error")
  | .dir => some (cfg ++ ": " ++ path ++ " must be a file")
  | .file => none

/-- `validateDirConfig`: a missing path or a plain file is an error. -/
def validateDirConfig (fs : String → FSEntry) (path cfg : String) : Option String :=
  match fs path with
  | .missing => some (cfg ++ ": " ++ path ++ " invalid: stat error")
  | .file => some (cfg ++ ": " ++ path ++ " must be a directory")
  | .dir => none

/-- The per-entry environment variable check of `Prepare`:
`strings.SplitN(kv, "=", 2)` must have two parts (the entry contains
`=`) and a non-empty first part. -/
def envVarOk (kv : String) : Bool :=
  kv.data.contains '=' && !(kv.data.takeWhile (fun c => c ≠ '=')).isEmpty

/-- All configuration errors collected by one `Prepare` call, in the
order the code appends them to its `MultiError`: the three
mutual-exclusivity checks, the environment-variable checks, the
state/pillar file checks, and the state/pillar tree checks.  `fs`
abstracts the local filesystem consulted by `os.Stat`. -/
def prepareErrors (fs : String → FSEntry) (c : Config) : List String :=
  (if c.stateFiles.length ≠ 0 ∧ c.stateTree ≠ "" then
    ["either state_files or state_tree can be specified, not both"] else []) ++
  (if c.stateFiles.length = 0 ∧ c.stateTree = "" then
    ["either state_files or state_tree must be specified"] else []) ++
  (if c.pillarFiles.length ≠ 0 ∧ c.pillarTree ≠ "" then
    ["either pillar_files or pillar_tree can be specified, not both"] else []) ++
  (c.envVars.filterMap (fun kv =>
    if envVarOk kv then none
    else some ("environment variable not in format 'key=value': " ++ kv))) ++
  (c.stateFiles.filterMap (fun f => validateFileConfig fs f "state_files")) ++
  (c.pillarFiles.filterMap (fun f => validateFileConfig fs f "pillar_files")) ++
  (if c.stateTree ≠ "" then (validateDirConfig fs c.stateTree "state_tree").toList else []) ++
  (if c.pillarTree ≠ "" then (validateDirConfig fs c.pillarTree "pillar_tree").toList else [])

/-- `Prepare`'s outcome: `ok` when no error was collected, otherwise
the whole accumulated error list in one multi-error. -/
def prepareResult (fs : String → FSEntry) (c : Config) : Except (List String) Unit :=
  if prepareErrors fs c = [] then .ok () else .error (prepareErrors fs c)

/-- Whether `pat` occurs as a contiguous run somewhere in `l`
(Go `strings.Contains`). -/
def occursB (pat : List Char) : List Char → Bool
  | [] => pat.isEmpty
  | c :: rest => pat.isPrefixOf (c :: rest) || occursB pat rest

/-- A pattern is self-overlap free when no proper non-trivial border
exists: an occurrence can then never straddle a position where another
occurrence starts. -/
def selfOverlapFree (pat : List Char) : Bool :=
  (List.range pat.length).all
    (fun k => k == 0 || decide (pat.drop k ≠ pat.take (pat.length - k)))

/-- The character list of the `.sls` suffix stripped by `stateName`. -/
def dotSls : List Char := ['.', 's', 'l', 's']

/-- The character list of the quote-escape sequence `'"'"'`. -/
def quoteEsc : List Char := ['\'', '"', '\'', '"', '\'']

/-- The characters a pair contributes to the flattened environment
string under the default format: `KEY` ++ `='` ++ `VALUE` ++ `' `. -/
def tokenOf (p : String × String) : List Char :=
  p.1.data ++ eqTok ++ p.2.data ++ sepTok

/-- `tokenOf` without its trailing separator: what the splitting phase
of the decoder recovers for each pair. -/
def tokenCore (p : String × String) : List Char :=
  p.1.data ++ eqTok ++ p.2.data

/-- Association-list lookup as the Go map read `envVars[key]`. -/
def lookupA (m : List (String × String)) (k : String) : Option String :=
  (m.find? (fun p => p.1 == k)).map Prod.snd

/-- The raw (unescaped) value of the last entry of the list whose
`SplitN`-key equals `k`, if any: the binding a Go map ends up with
after the `escapeEnvVars` loop, before escaping. -/
def lastValFor (entries : List String) (k : String) : Option String :=
  ((entries.filter (fun kv => splitN2Key kv == k)).getLast?).map splitN2Val

/-- The key/value map of the entries before escaping (same last-wins
map construction as `envMapOf`, raw values). -/
def rawMapOf (entries : List String) : List (String × String) :=
  entries.foldl (fun m kv => updateAssoc m (splitN2Key kv) (splitN2Val kv)) []

/-- The original key/value pairs of the entry list, sorted by key: the
reference point of the spec's round-trip property. -/
def rawPairs (entries : List String) : List (String × String) :=
  List.insertionSort keyLe (rawMapOf entries)

/-! ### Generic lemmas about the fuel-driven scanners -/

lemma replaceAllGo_fuel (pat rep : List Char) :
    ∀ (f₁ : Nat) (f₂ : Nat) (l : List Char), l.length ≤ f₁ → l.length ≤ f₂ →
      replaceAllGo pat rep f₁ l = replaceAllGo pat rep f₂ l := by
  intro f₁
  induction f₁ with
  | zero =>
    intro f₂ l h1 _
    have hl : l = [] := List.eq_nil_of_length_eq_zero (Nat.le_zero.mp h1)
    subst hl
    cases f₂ <;> rfl
  | succ f ih =>
    intro f₂ l h1 h2
    cases l with
    | nil => cases f₂ <;> rfl
    | cons c rest =>
      cases f₂ with
      | zero => simp at h2
      | succ f₂' =>
        simp only [List.length_cons, Nat.add_le_add_iff_right] at h1 h2
        simp only [replaceAllGo]
        by_cases hp : pat.isPrefixOf (c :: rest)
        · simp only [hp, if_true]
          exact congrArg (fun z => rep ++ z)
            (ih _ _ (by simp only [List.length_drop]; omega) (by simp only [List.length_drop]; omega))
        · simp only [hp, if_false]
          exact congrArg (fun z => c :: z) (ih _ _ h1 h2)

lemma replaceAll_cons_pos (pat rep : List Char) (c : Char) (rest : List Char)
    (h : pat.isPrefixOf (c :: rest) = true) :
    replaceAll pat rep (c :: rest) = rep ++ replaceAll pat rep (rest.drop (pat.length - 1)) := by
  show replaceAllGo pat rep (rest.length + 1) (c :: rest) = _
  simp only [replaceAllGo, h, if_true]
  congr 1
  exact replaceAllGo_fuel pat rep _ _ _ (by simp only [List.length_drop]; omega) (le_refl _)

lemma replaceAll_cons_neg (pat rep : List Char) (c : Char) (rest : List Char)
    (h : pat.isPrefixOf (c :: rest) = false) :
    replaceAll pat rep (c :: rest) = c :: replaceAll pat rep rest := by
  show replaceAllGo pat rep (rest.length + 1) (c :: rest) = _
  simp only [replaceAllGo, h, if_false]
  rfl

lemma splitOnSepGo_fuel (pat : List Char) :
    ∀ (f₁ : Nat) (f₂ : Nat) (l : List Char), l.length ≤ f₁ → l.length ≤ f₂ →
      splitOnSepGo pat f₁ l = splitOnSepGo pat f₂ l := by
  intro f₁
  induction f₁ with
  | zero =>
    intro f₂ l h1 _
    have hl : l = [] := List.eq_nil_of_length_eq_zero (Nat.le_zero.mp h1)
    subst hl
    cases f₂ <;> rfl
  | succ f ih =>
    intro f₂ l h1 h2
    cases l with
    | nil => cases f₂ <;> rfl
    | cons c rest =>
      cases f₂ with
      | zero => simp at h2
      | succ f₂' =>
        simp only [List.length_cons, Nat.add_le_add_iff_right] at h1 h2
        simp only [splitOnSepGo]
        by_cases hp : pat.isPrefixOf (c :: rest)
        · simp only [hp, if_true]
          exact congrArg (fun z => [] :: z)
            (ih _ _ (by simp only [List.length_drop]; omega) (by simp only [List.length_drop]; omega))
        · simp only [hp, if_false]
          exact congrArg (List.modifyHead (fun p => c :: p)) (ih _ _ h1 h2)

lemma splitOnSep_cons_pos (pat : List Char) (c : Char) (rest : List Char)
    (h : pat.isPrefixOf (c :: rest) = true) :
    splitOnSep pat (c :: rest) = [] :: splitOnSep pat (rest.drop (pat.length - 1)) := by
  show splitOnSepGo pat (rest.length + 1) (c :: rest) = _
  simp only [splitOnSepGo, h, if_true]
  congr 1
  exact splitOnSepGo_fuel pat _ _ _ (by simp only [List.length_drop]; omega) (le_refl _)

lemma splitOnSep_cons_neg (pat : List Char) (c : Char) (rest : List Char)
    (h : pat.isPrefixOf (c :: rest) = false) :
    splitOnSep pat (c :: rest) = List.modifyHead (fun p => c :: p) (splitOnSep pat rest) := by
  show splitOnSepGo pat (rest.length + 1) (c :: rest) = _
  simp only [splitOnSepGo, h, if_false]
  rfl

/-! ### Occurrence and straddling lemmas -/

lemma isPrefixOf_self (l : List Char) : l.isPrefixOf l = true := by
  induction l with
  | nil => rfl
  | cons c t ih => simp [List.isPrefixOf, ih]

lemma isPrefixOf_append_le (pat x rest : List Char) (h : pat.length ≤ x.length) :
    pat.isPrefixOf (x ++ rest) = pat.isPrefixOf x := by
  induction pat generalizing x with
  | nil => simp [List.isPrefixOf]
  | cons p pt ih =>
    cases x with
    | nil => simp at h
    | cons a xt =>
      simp only [List.cons_append, List.isPrefixOf, List.append_eq]
      rw [ih xt (by simpa using h)]

lemma isPrefixOf_take (pat l : List Char) :
    pat.isPrefixOf l = true ↔ l.take pat.length = pat := by
  induction pat generalizing l with
  | nil => simp [List.isPrefixOf]
  | cons p pt ih =>
    cases l with
    | nil => simp [List.isPrefixOf]
    | cons c t =>
      simp only [List.isPrefixOf, Bool.and_eq_true, beq_iff_eq, List.length_cons,
        List.take_succ_cons, List.cons.injEq, ih]
      constructor
      · rintro ⟨h1, h2⟩; exact ⟨h1.symm, h2⟩
      · rintro ⟨h1, h2⟩; exact ⟨h1.symm, h2⟩

lemma occursB_of_part (pat l₁ l₂ : List Char) (hp : pat.isPrefixOf l₂ = true) :
    occursB pat (l₁ ++ l₂) = true := by
  induction l₁ with
  | nil =>
    cases l₂ with
    | nil =>
      cases pat with
      | nil => rfl
      | cons _ _ => simp [List.isPrefixOf] at hp
    | cons c t => simp [occursB, hp]
  | cons c t ih => simp [occursB, ih]

lemma straddle_eq (pat x y : List Char) (hlen : x.length < pat.length)
    (hp : pat.isPrefixOf (x ++ (pat ++ y)) = true) :
    pat.drop x.length = pat.take (pat.length - x.length) := by
  have ht := (isPrefixOf_take _ _).mp hp
  rw [List.take_append_eq_append_take, List.take_of_length_le (le_of_lt hlen),
    List.take_append_eq_append_take,
    show pat.length - x.length - pat.length = 0 by omega,
    List.take_zero, List.append_nil] at ht
  have h2 : pat.drop x.length = (x ++ pat.take (pat.length - x.length)).drop x.length := by
    rw [ht]
  rw [List.drop_left] at h2
  exact h2

lemma selfOverlapFree_spec (pat : List Char) (h : selfOverlapFree pat = true)
    (k : Nat) (h0 : 0 < k) (hk : k < pat.length) :
    pat.drop k ≠ pat.take (pat.length - k) := by
  unfold selfOverlapFree at h
  rw [List.all_eq_true] at h
  have hx := h k (List.mem_range.mpr hk)
  simp only [Bool.or_eq_true, beq_iff_eq, decide_eq_true_eq] at hx
  rcases hx with h' | h'
  · omega
  · exact h'

lemma no_straddle (pat x y : List Char) (hfree : selfOverlapFree pat = true)
    (hx : x ≠ []) (hlen : x.length < pat.length) :
    pat.isPrefixOf (x ++ (pat ++ y)) = false := by
  cases hb : pat.isPrefixOf (x ++ (pat ++ y)) with
  | false => rfl
  | true =>
    exact absurd (straddle_eq pat x y hlen hb)
      (selfOverlapFree_spec pat hfree x.length (List.length_pos.mpr hx) hlen)

lemma occurrence_discharge (pat x y : List Char) (hfree : selfOverlapFree pat = true)
    (hocc : occursB pat x = false) :
    ∀ x₁ x₂, x = x₁ ++ x₂ → x₂ ≠ [] → pat.isPrefixOf (x₂ ++ (pat ++ y)) = false := by
  intro x₁ x₂ hx hne
  by_cases hl : pat.length ≤ x₂.length
  · rw [isPrefixOf_append_le pat x₂ (pat ++ y) hl]
    cases hb : pat.isPrefixOf x₂ with
    | false => rfl
    | true =>
      rw [hx, occursB_of_part pat x₁ x₂ hb] at hocc
      exact absurd hocc (by simp)
  · exact no_straddle pat x₂ y hfree hne (by omega)

lemma replaceAll_append_pat (pat rep x : List Char) (hpat : pat ≠ [])
    (h : ∀ x₁ x₂, x = x₁ ++ x₂ → x₂ ≠ [] → pat.isPrefixOf (x₂ ++ pat) = false) :
    replaceAll pat rep (x ++ pat) = x ++ rep := by
  induction x with
  | nil =>
    cases pat with
    | nil => exact absurd rfl hpat
    | cons p pt =>
      rw [List.nil_append, List.nil_append,
        replaceAll_cons_pos _ _ _ _ (isPrefixOf_self _)]
      simp [replaceAll, replaceAllGo, List.drop_length]
  | cons c t ih =>
    have hno : (pat.isPrefixOf (c :: (t ++ pat))) = false := by
      have hcc := h [] (c :: t) rfl (by simp)
      simpa using hcc
    rw [List.cons_append, replaceAll_cons_neg _ _ _ _ hno,
      ih (fun x₁ x₂ hx hne => h (c :: x₁) x₂ (by rw [hx]; rfl) hne)]
    rfl

lemma dotSls_selfFree : selfOverlapFree dotSls = true := by decide

lemma sepTok_selfFree : selfOverlapFree sepTok = true := by decide

lemma stateName_strip (s : String) (h : occursB dotSls s.data = false) :
    stateName (s ++ ".sls") = s := by
  have key : replaceAll dotSls [] (s.data ++ dotSls) = s.data ++ [] :=
    replaceAll_append_pat dotSls [] s.data (by decide)
      (fun x₁ x₂ hx hne => by
        have hz := occurrence_discharge dotSls s.data [] dotSls_selfFree h x₁ x₂ hx hne
        rwa [List.append_nil] at hz)
  show String.mk (replaceAll dotSls [] (s.data ++ dotSls)) = s
  rw [key, List.append_nil]

/-! ### Quote-escaping round trip -/

lemma escL_cons (c : Char) (rest : List Char) :
    replaceAll ['\''] quoteEsc (c :: rest) =
      (if c = '\'' then quoteEsc else [c]) ++ replaceAll ['\''] quoteEsc rest := by
  by_cases hc : c = '\''
  · subst hc
    rw [replaceAll_cons_pos _ _ _ _ (by simp [List.isPrefixOf])]
    simp
  · rw [replaceAll_cons_neg _ _ _ _ (by simp [List.isPrefixOf]; exact fun he => absurd he.symm hc)]
    simp [hc]

lemma unesc_quoteEsc (l : List Char) :
    replaceAll quoteEsc ['\''] (quoteEsc ++ l) = '\'' :: replaceAll quoteEsc ['\''] l := by
  have hpre : quoteEsc.isPrefixOf (quoteEsc ++ l) = true := by
    rw [isPrefixOf_append_le _ _ _ (le_refl _), isPrefixOf_self]
  rw [show quoteEsc ++ l = '\'' :: ('"' :: '\'' :: '"' :: '\'' :: l) from rfl] at hpre ⊢
  rw [replaceAll_cons_pos _ _ _ _ hpre]
  simp [quoteEsc]

lemma unesc_cons_ne (c : Char) (l : List Char) (hc : c ≠ '\'') :
    replaceAll quoteEsc ['\''] (c :: l) = c :: replaceAll quoteEsc ['\''] l := by
  rw [replaceAll_cons_neg]
  simp [List.isPrefixOf, quoteEsc]
  exact fun he => absurd he.symm hc

lemma unesc_escL (v : List Char) :
    replaceAll quoteEsc ['\''] (replaceAll ['\''] quoteEsc v) = v := by
  induction v with
  | nil => rfl
  | cons c rest ih =>
    rw [escL_cons]
    by_cases hc : c = '\''
    · subst hc
      rw [if_pos rfl, unesc_quoteEsc, ih]
    · simp only [if_neg hc, List.singleton_append]
      rw [unesc_cons_ne c _ hc, ih]

lemma unescQuote_escQuote (v : String) : unescQuote (escQuote v) = v := by
  show String.mk (replaceAll quoteEsc ['\''] (replaceAll ['\''] quoteEsc v.data)) = v
  rw [unesc_escL]

/-! ### Splitting around planted separators -/

lemma splitOnSep_append_pat (pat x y : List Char) (hpat : pat ≠ [])
    (h : ∀ x₁ x₂, x = x₁ ++ x₂ → x₂ ≠ [] → pat.isPrefixOf (x₂ ++ (pat ++ y)) = false) :
    splitOnSep pat (x ++ (pat ++ y)) = x :: splitOnSep pat y := by
  induction x with
  | nil =>
    cases pat with
    | nil => exact absurd rfl hpat
    | cons p pt =>
      rw [List.nil_append]
      have hpre : (p :: pt).isPrefixOf ((p :: pt) ++ y) = true := by
        rw [isPrefixOf_append_le _ _ _ (le_refl _), isPrefixOf_self]
      rw [show (p :: pt) ++ y = p :: (pt ++ y) from rfl] at hpre ⊢
      rw [splitOnSep_cons_pos _ _ _ hpre]
      simp [List.drop_left]
  | cons c t ih =>
    have hno : pat.isPrefixOf (c :: (t ++ (pat ++ y))) = false := by
      have hcc := h [] (c :: t) rfl (by simp)
      simpa using hcc
    rw [List.cons_append, splitOnSep_cons_neg _ _ _ hno,
      ih (fun x₁ x₂ hx hne => h (c :: x₁) x₂ (by rw [hx]; rfl) hne)]
    rfl

lemma splitFirst_append (pat k rest : List Char) (hpat : pat ≠ [])
    (h : ∀ k₁ k₂, k = k₁ ++ k₂ → k₂ ≠ [] → pat.isPrefixOf (k₂ ++ (pat ++ rest)) = false) :
    splitFirst pat (k ++ (pat ++ rest)) = some (k, rest) := by
  induction k with
  | nil =>
    cases pat with
    | nil => exact absurd rfl hpat
    | cons p pt =>
      rw [List.nil_append]
      have hpre : (p :: pt).isPrefixOf ((p :: pt) ++ rest) = true := by
        rw [isPrefixOf_append_le _ _ _ (le_refl _), isPrefixOf_self]
      rw [show (p :: pt) ++ rest = p :: (pt ++ rest) from rfl] at hpre ⊢
      simp only [splitFirst, hpre, if_true]
      simp [List.drop_left]
  | cons c t ih =>
    have hno : pat.isPrefixOf (c :: (t ++ (pat ++ rest))) = false := by
      have hcc := h [] (c :: t) rfl (by simp)
      simpa using hcc
    rw [List.cons_append]
    simp only [splitFirst, hno, Bool.false_eq_true, if_false]
    rw [ih (fun k₁ k₂ hx hne => h (c :: k₁) k₂ (by rw [hx]; rfl) hne)]
    rfl

lemma eqTok_discharge (k rest : List Char) (hk : '=' ∉ k) :
    ∀ k₁ k₂, k = k₁ ++ k₂ → k₂ ≠ [] → eqTok.isPrefixOf (k₂ ++ (eqTok ++ rest)) = false := by
  intro k₁ k₂ hx hne
  cases k₂ with
  | nil => exact absurd rfl hne
  | cons a t =>
    have ha : a ∈ k := by
      rw [hx]
      exact List.mem_append.mpr (Or.inr (by simp))
    have hne2 : a ≠ '=' := fun he => hk (he ▸ ha)
    simp [List.isPrefixOf, eqTok]
    exact fun he => absurd he.symm hne2

lemma parseToken_append (k v : List Char) (hk : '=' ∉ k) :
    parseToken (k ++ (eqTok ++ v)) = some (⟨k⟩, unescQuote ⟨v⟩) := by
  unfold parseToken
  rw [splitFirst_append eqTok k v (by decide) (eqTok_discharge k v hk)]

/-! ### Flattening and decoding of the environment string -/

lemma strData_append (a b : String) : (a ++ b).data = a.data ++ b.data := rfl

lemma sprintf_defaultFormat (k v : String) :
    (sprintf defaultEnvFormat [k, v]).data = tokenOf (k, v) := by
  show k.data ++ ('=' :: '\'' :: (v.data ++ ['\'', ' '])) = tokenOf (k, v)
  simp [tokenOf, eqTok, sepTok]

lemma foldl_flatten_data (ps : List (String × String)) :
    ∀ a : String,
      (ps.foldl (fun acc p => acc ++ sprintf defaultEnvFormat [p.1, p.2]) a).data =
        a.data ++ List.flatten (ps.map tokenOf) := by
  induction ps with
  | nil => intro a; simp
  | cons p t ih =>
    intro a
    simp only [List.foldl_cons, List.map_cons, List.flatten_cons]
    rw [ih, strData_append, sprintf_defaultFormat, List.append_assoc]

lemma createFlattened_data (entries : List String) :
    (createFlattenedEnvVars entries).data =
      List.flatten ((escapeEnvVars entries).map tokenOf) := by
  show ((escapeEnvVars entries).foldl
    (fun acc p => acc ++ sprintf defaultEnvFormat [p.1, p.2]) "").data = _
  rw [foldl_flatten_data]
  rfl

lemma splitOnSep_flatten (ps : List (String × String))
    (h : ∀ p ∈ ps, occursB sepTok (tokenCore p) = false) :
    splitOnSep sepTok (List.flatten (ps.map tokenOf)) = (ps.map tokenCore) ++ [[]] := by
  induction ps with
  | nil => rfl
  | cons p t ih =>
    simp only [List.map_cons, List.flatten_cons]
    rw [show tokenOf p ++ List.flatten (t.map tokenOf) =
      tokenCore p ++ (sepTok ++ List.flatten (t.map tokenOf)) by
        simp [tokenOf, tokenCore, List.append_assoc]]
    rw [splitOnSep_append_pat sepTok _ _ (by decide)
      (occurrence_discharge sepTok (tokenCore p) _ sepTok_selfFree (h p (by simp)))]
    rw [ih (fun q hq => h q (by simp [hq]))]
    rfl

lemma mapM_parseToken (ps : List (String × String))
    (hk : ∀ p ∈ ps, '=' ∉ p.1.data) :
    (ps.map tokenCore).mapM parseToken =
      some (ps.map (fun p => (p.1, unescQuote p.2))) := by
  induction ps with
  | nil => rfl
  | cons p t ih =>
    simp only [List.map_cons, List.mapM_cons]
    rw [show tokenCore p = p.1.data ++ (eqTok ++ p.2.data) by
      simp [tokenCore, List.append_assoc]]
    rw [parseToken_append _ _ (hk p (by simp)), ih (fun q hq => hk q (by simp [hq]))]
    rfl

lemma decode_createFlattened (entries : List String)
    (hk : ∀ p ∈ escapeEnvVars entries, '=' ∉ p.1.data)
    (hs : ∀ p ∈ escapeEnvVars entries, occursB sepTok (tokenCore p) = false) :
    decodeFlattened (createFlattenedEnvVars entries) =
      some ((escapeEnvVars entries).map (fun p => (p.1, unescQuote p.2))) := by
  unfold decodeFlattened
  rw [createFlattened_data, splitOnSep_flatten _ hs, List.getLast?_concat,
    if_pos rfl, List.dropLast_concat, mapM_parseToken _ hk]

/-! ### Escaping commutes with map construction and sorting -/

lemma updateAssoc_map_val (f : String → String) (m : List (String × String)) (k v : String) :
    updateAssoc (m.map (fun p => (p.1, f p.2))) k (f v) =
      (updateAssoc m k v).map (fun p => (p.1, f p.2)) := by
  unfold updateAssoc
  have hany : (m.map (fun p => (p.1, f p.2))).any (fun p => p.1 == k) =
      m.any (fun p => p.1 == k) := by
    rw [List.any_map]
    rfl
  rw [hany]
  by_cases hc : m.any (fun p => p.1 == k) = true
  · rw [if_pos hc, if_pos hc, List.map_map, List.map_map]
    apply List.map_congr_left
    intro p _
    by_cases hk : p.1 == k
    · simp [Function.comp, hk]
    · simp [Function.comp, hk]
  · rw [if_neg hc, if_neg hc]
    simp

lemma envMapOf_eq_map (entries : List String) :
    envMapOf entries = (rawMapOf entries).map (fun p => (p.1, escQuote p.2)) := by
  unfold envMapOf rawMapOf
  suffices h : ∀ m : List (String × String),
      entries.foldl (fun m kv => updateAssoc m (splitN2Key kv) (escQuote (splitN2Val kv)))
        (m.map (fun p => (p.1, escQuote p.2))) =
      (entries.foldl (fun m kv => updateAssoc m (splitN2Key kv) (splitN2Val kv)) m).map
        (fun p => (p.1, escQuote p.2)) by
    simpa using h []
  induction entries with
  | nil => intro m; rfl
  | cons kv t ih =>
    intro m
    simp only [List.foldl_cons]
    rw [updateAssoc_map_val, ih]

lemma orderedInsert_map_val (f : String → String) (p : String × String)
    (l : List (String × String)) :
    List.orderedInsert keyLe (p.1, f p.2) (l.map (fun q => (q.1, f q.2))) =
      (List.orderedInsert keyLe p l).map (fun q => (q.1, f q.2)) := by
  induction l with
  | nil => rfl
  | cons q t ih =>
    have hcond : keyLe (p.1, f p.2) (q.1, f q.2) = keyLe p q := rfl
    by_cases h : keyLe p q
    · simp only [List.map_cons, List.orderedInsert, hcond]
      rw [if_pos h, if_pos h]
      rfl
    · simp only [List.map_cons, List.orderedInsert, hcond]
      rw [if_neg h, if_neg h, List.map_cons, ih]

lemma insertionSort_map_val (f : String → String) (l : List (String × String)) :
    List.insertionSort keyLe (l.map (fun q => (q.1, f q.2))) =
      (List.insertionSort keyLe l).map (fun q => (q.1, f q.2)) := by
  induction l with
  | nil => rfl
  | cons p t ih =>
    rw [List.map_cons, List.insertionSort, List.insertionSort, ih]
    exact orderedInsert_map_val f p (List.insertionSort keyLe t)

lemma escapeEnvVars_eq_map (entries : List String) :
    escapeEnvVars entries = (rawPairs entries).map (fun p => (p.1, escQuote p.2)) := by
  unfold escapeEnvVars rawPairs
  rw [envMapOf_eq_map, insertionSort_map_val]

lemma unesc_escapeEnvVars (entries : List String) :
    (escapeEnvVars entries).map (fun p => (p.1, unescQuote p.2)) = rawPairs entries := by
  rw [escapeEnvVars_eq_map, List.map_map]
  have h : ∀ p ∈ rawPairs entries,
      ((fun p => (p.1, unescQuote p.2)) ∘ fun p => (p.1, escQuote p.2)) p = id p := by
    intro p _
    simp [Function.comp, unescQuote_escQuote]
  rw [List.map_congr_left h, List.map_id]

/-! ### The key order is total and transitive -/

lemma leChars_total : ∀ a b : List Char, leChars a b = true ∨ leChars b a = true := by
  intro a
  induction a with
  | nil => intro b; exact Or.inl rfl
  | cons x as ih =>
    intro b
    cases b with
    | nil => exact Or.inr rfl
    | cons y bs =>
      by_cases hxy : x = y
      · subst hxy
        simp only [leChars, if_pos rfl]
        exact ih bs
      · rcases lt_trichotomy x y with h | h | h
        · exact Or.inl (by simp [leChars, hxy, h])
        · exact absurd h hxy
        · have hyx : ¬y = x := fun he => hxy he.symm
          exact Or.inr (by simp [leChars, hyx, h])

lemma leChars_trans :
    ∀ a b c : List Char, leChars a b = true → leChars b c = true → leChars a c = true := by
  intro a
  induction a with
  | nil => intro b c _ _; rfl
  | cons x as ih =>
    intro b c h1 h2
    cases b with
    | nil => simp [leChars] at h1
    | cons y bs =>
      cases c with
      | nil => simp [leChars] at h2
      | cons z cs =>
        by_cases hxy : x = y <;> by_cases hyz : y = z
        · subst hxy; subst hyz
          simp only [leChars, if_pos rfl] at h1 h2 ⊢
          exact ih bs cs h1 h2
        · subst hxy
          simp only [leChars, if_neg hyz] at h2
          have hlt : x < z := of_decide_eq_true h2
          simp [leChars, ne_of_lt hlt, hlt]
        · subst hyz
          simp only [leChars, if_neg hxy] at h1
          have hlt : x < y := of_decide_eq_true h1
          simp [leChars, ne_of_lt hlt, hlt]
        · simp only [leChars, if_neg hxy] at h1
          simp only [leChars, if_neg hyz] at h2
          have hlt : x < z := lt_trans (of_decide_eq_true h1) (of_decide_eq_true h2)
          simp [leChars, ne_of_lt hlt, hlt]

instance : IsTotal (String × String) keyLe := ⟨fun p q => leChars_total p.1.data q.1.data⟩

instance : IsTrans (String × String) keyLe :=
  ⟨fun p q r h1 h2 => leChars_trans p.1.data q.1.data r.1.data h1 h2⟩

/-! ### Map semantics of the environment encoder -/

lemma find?_cons_pos (p : String × String → Bool) (a : String × String)
    (l : List (String × String)) (h : p a = true) :
    List.find? p (a :: l) = some a := by
  simp [List.find?, h]

lemma find?_cons_neg (p : String × String → Bool) (a : String × String)
    (l : List (String × String)) (h : p a = false) :
    List.find? p (a :: l) = List.find? p l := by
  simp [List.find?, h]

lemma find?_replace_ne (t : List (String × String)) (k v k' : String) (h : k' ≠ k) :
    (t.map (fun p => if p.1 == k then (p.1, v) else p)).find? (fun p => p.1 == k') =
      t.find? (fun p => p.1 == k') := by
  induction t with
  | nil => rfl
  | cons r t' ih =>
    simp only [List.map_cons]
    by_cases hr : r.1 = k'
    · have hrk : (r.1 == k) = false := by
        rw [beq_eq_false_iff_ne, hr]
        exact h
      have hhead : (if r.1 == k then (r.1, v) else r) = r := by rw [hrk]; rfl
      have hp : (r.1 == k') = true := by rw [beq_iff_eq]; exact hr
      rw [hhead, find?_cons_pos (fun p => p.1 == k') r _ hp,
        find?_cons_pos (fun p => p.1 == k') r t' hp]
    · have hp : (r.1 == k') = false := by rw [beq_eq_false_iff_ne]; exact hr
      have hfst : ((if r.1 == k then (r.1, v) else r).1 == k') = false := by
        by_cases hrk : r.1 == k
        · rw [if_pos hrk]; exact hp
        · rw [if_neg hrk]; exact hp
      rw [find?_cons_neg (fun p => p.1 == k') _ _ hfst,
        find?_cons_neg (fun p => p.1 == k') r t' hp]
      exact ih

lemma find?_replace_hit (t : List (String × String)) (k v : String)
    (h : t.any (fun p => p.1 == k) = true) :
    (t.map (fun p => if p.1 == k then (p.1, v) else p)).find? (fun p => p.1 == k) =
      some (k, v) := by
  induction t with
  | nil => simp at h
  | cons r t' ih =>
    simp only [List.map_cons]
    by_cases hr : r.1 = k
    · have hrk : (r.1 == k) = true := by rw [beq_iff_eq]; exact hr
      have hhead : (if r.1 == k then (r.1, v) else r) = (r.1, v) := by rw [hrk]; rfl
      rw [hhead, find?_cons_pos (fun p => p.1 == k) (r.1, v) _ (by exact hrk), hr]
    · have hrk : (r.1 == k) = false := by rw [beq_eq_false_iff_ne]; exact hr
      have hhead : (if r.1 == k then (r.1, v) else r) = r := by rw [hrk]; rfl
      rw [hhead, find?_cons_neg (fun p => p.1 == k) r _ hrk]
      apply ih
      rw [List.any_cons, hrk] at h
      simpa using h

lemma find?_none_of_any_false (m : List (String × String)) (k : String)
    (h : m.any (fun p => p.1 == k) = false) :
    m.find? (fun p => p.1 == k) = none := by
  rw [List.find?_eq_none]
  intro p hp
  exact (List.any_eq_false.mp h) p hp

lemma lookupA_updateAssoc (m : List (String × String)) (k v k' : String) :
    lookupA (updateAssoc m k v) k' = if k' = k then some v else lookupA m k' := by
  unfold lookupA updateAssoc
  by_cases hany : m.any (fun p => p.1 == k) = true
  · rw [if_pos hany]
    by_cases hk : k' = k
    · subst hk
      rw [if_pos rfl, find?_replace_hit m k' v hany]
      rfl
    · rw [if_neg hk, find?_replace_ne m k v k' hk]
  · have hany' : m.any (fun p => p.1 == k) = false := by
      cases hval : m.any (fun p => p.1 == k) with
      | true => exact absurd hval hany
      | false => rfl
    rw [if_neg hany, List.find?_append]
    by_cases hk : k' = k
    · subst hk
      rw [find?_none_of_any_false m k' hany']
      rw [if_pos rfl, find?_cons_pos (fun p => p.1 == k') (k', v) [] (by simp)]
      rfl
    · have hsingle : ([(k, v)] : List (String × String)).find? (fun p => p.1 == k') = none := by
        rw [find?_cons_neg (fun p => p.1 == k') (k, v) []
          (by rw [beq_eq_false_iff_ne]; exact fun he => hk he.symm)]
        rfl
      rw [hsingle, if_neg hk]
      cases m.find? (fun p => p.1 == k') <;> rfl

lemma envMapOf_concat (es : List String) (e : String) :
    envMapOf (es ++ [e]) =
      updateAssoc (envMapOf es) (splitN2Key e) (escQuote (splitN2Val e)) := by
  unfold envMapOf
  rw [List.foldl_concat]

lemma lookupA_envMapOf (entries : List String) (k : String) :
    lookupA (envMapOf entries) k = (lastValFor entries k).map escQuote := by
  induction entries using List.reverseRecOn with
  | nil => rfl
  | append_singleton es e ih =>
    rw [envMapOf_concat, lookupA_updateAssoc]
    unfold lastValFor
    rw [List.filter_append]
    by_cases he : splitN2Key e = k
    · have hb : (splitN2Key e == k) = true := by rw [beq_iff_eq]; exact he
      have hf : List.filter (fun kv => splitN2Key kv == k) [e] = [e] := by
        simp [List.filter, hb]
      rw [hf, List.getLast?_concat, if_pos he.symm]
      rfl
    · have hb : (splitN2Key e == k) = false := by rw [beq_eq_false_iff_ne]; exact he
      have hf : List.filter (fun kv => splitN2Key kv == k) [e] = [] := by
        simp [List.filter, hb]
      rw [hf, List.append_nil, if_neg (fun hk => he hk.symm)]
      exact ih

lemma lookupA_cons (p : String × String) (l : List (String × String)) (k : String) :
    lookupA (p :: l) k = if p.1 = k then some p.2 else lookupA l k := by
  unfold lookupA
  by_cases hp : p.1 = k
  · rw [find?_cons_pos (fun q => q.1 == k) p l (by rw [beq_iff_eq]; exact hp), if_pos hp]
    rfl
  · rw [find?_cons_neg (fun q => q.1 == k) p l (by rw [beq_eq_false_iff_ne]; exact hp),
      if_neg hp]

lemma lookupA_orderedInsert (p : String × String) (l : List (String × String))
    (hnk : p.1 ∉ l.map Prod.fst) (k : String) :
    lookupA (List.orderedInsert keyLe p l) k = lookupA (p :: l) k := by
  induction l with
  | nil => rfl
  | cons q t ih =>
    simp only [List.orderedInsert]
    by_cases h : keyLe p q
    · rw [if_pos h]
    · rw [if_neg h]
      have hq : p.1 ≠ q.1 := by
        intro he
        exact hnk (by simp [he])
      have hnk' : p.1 ∉ t.map Prod.fst := fun hm => hnk (by simp [hm])
      rw [lookupA_cons, ih hnk', lookupA_cons, lookupA_cons, lookupA_cons]
      by_cases hk1 : q.1 = k <;> by_cases hk2 : p.1 = k
      · exact absurd (hk2.trans hk1.symm) hq
      · simp [hk1, hk2]
      · simp [hk1, hk2]
      · simp [hk1, hk2]

lemma lookupA_insertionSort (l : List (String × String))
    (h : (l.map Prod.fst).Nodup) (k : String) :
    lookupA (List.insertionSort keyLe l) k = lookupA l k := by
  induction l with
  | nil => rfl
  | cons p t ih =>
    rw [List.insertionSort]
    have hc := List.nodup_cons.mp (by rw [List.map_cons] at h; exact h)
    have hpn' : p.1 ∉ (List.insertionSort keyLe t).map Prod.fst := by
      intro hm
      exact hc.1 (((List.perm_insertionSort keyLe t).map Prod.fst).mem_iff.mp hm)
    rw [lookupA_orderedInsert p _ hpn' k, lookupA_cons, lookupA_cons, ih hc.2]

lemma keys_updateAssoc (m : List (String × String)) (k v : String) :
    (updateAssoc m k v).map Prod.fst =
      if m.any (fun p => p.1 == k) then m.map Prod.fst else m.map Prod.fst ++ [k] := by
  unfold updateAssoc
  by_cases hc : m.any (fun p => p.1 == k) = true
  · rw [if_pos hc, if_pos hc, List.map_map]
    apply List.map_congr_left
    intro p _
    by_cases hk : p.1 == k
    · simp [Function.comp, hk]
    · simp [Function.comp, hk]
  · rw [if_neg hc, if_neg hc]
    simp

lemma nodup_keys_envMapOf (entries : List String) :
    ((envMapOf entries).map Prod.fst).Nodup := by
  unfold envMapOf
  suffices h : ∀ m : List (String × String), (m.map Prod.fst).Nodup →
      ((entries.foldl
        (fun m kv => updateAssoc m (splitN2Key kv) (escQuote (splitN2Val kv))) m).map
          Prod.fst).Nodup by
    exact h [] (by simp)
  induction entries with
  | nil => intro m hm; exact hm
  | cons kv t ih =>
    intro m hm
    simp only [List.foldl_cons]
    apply ih
    rw [keys_updateAssoc]
    by_cases hc : m.any (fun p => p.1 == splitN2Key kv) = true
    · rw [if_pos hc]; exact hm
    · rw [if_neg hc]
      have hnm : splitN2Key kv ∉ m.map Prod.fst := by
        intro hmem
        rcases List.mem_map.mp hmem with ⟨p, hp, hfst⟩
        exact hc (List.any_eq_true.mpr ⟨p, hp, by rw [beq_iff_eq]; exact hfst⟩)
      rw [List.nodup_append]
      refine ⟨hm, by simp, ?_⟩
      intro a ha hb
      rw [List.mem_singleton] at hb
      exact hnm (hb ▸ ha)

lemma mem_keys_envMapOf (entries : List String) :
    ∀ k : String,
      (k ∈ (envMapOf entries).map Prod.fst ↔ ∃ e ∈ entries, splitN2Key e = k) := by
  induction entries using List.reverseRecOn with
  | nil => intro k; simp [envMapOf]
  | append_singleton es e ih =>
    intro k
    rw [envMapOf_concat, keys_updateAssoc]
    have hke : (envMapOf es).any (fun p => p.1 == splitN2Key e) = true →
        ∃ e' ∈ es, splitN2Key e' = splitN2Key e := by
      intro hc
      rcases List.any_eq_true.mp hc with ⟨p, hp, hpk⟩
      have hpm : p.1 ∈ (envMapOf es).map Prod.fst := List.mem_map.mpr ⟨p, hp, rfl⟩
      rcases (ih p.1).mp hpm with ⟨e'', he'', hk''⟩
      exact ⟨e'', he'', by rw [hk'']; exact (beq_iff_eq.mp hpk)⟩
    by_cases hc : (envMapOf es).any (fun p => p.1 == splitN2Key e) = true
    · rw [if_pos hc, ih k]
      constructor
      · rintro ⟨e', he', hk'⟩
        exact ⟨e', List.mem_append.mpr (Or.inl he'), hk'⟩
      · rintro ⟨e', he', hk'⟩
        rcases List.mem_append.mp he' with hes | hsing
        · exact ⟨e', hes, hk'⟩
        · rcases hke hc with ⟨e'', he'', hk''⟩
          rw [List.mem_singleton] at hsing
          subst hsing
          exact ⟨e'', he'', by rw [hk'', hk']⟩
    · rw [if_neg hc]
      rw [List.mem_append, List.mem_singleton, ih k]
      constructor
      · rintro (⟨e', he', hk'⟩ | hk)
        · exact ⟨e', List.mem_append.mpr (Or.inl he'), hk'⟩
        · exact ⟨e, List.mem_append.mpr (Or.inr (List.mem_singleton.mpr rfl)), hk.symm⟩
      · rintro ⟨e', he', hk'⟩
        rcases List.mem_append.mp he' with hes | hsing
        · exact Or.inl ⟨e', hes, hk'⟩
        · rw [List.mem_singleton] at hsing
          subst hsing
          exact Or.inr hk'.symm

end Salt

namespace Salt

/-! ### Claim theorems -/

/-- C1 (counterexample): an unrecognized non-empty `target_os` such as
`"macos"` does not resolve to the linux profile: `getConfig` returns a
different (empty) string than it does for `"linux"`, refuting the claim
that every profile lookup falls back to the linux profile. -/
theorem osProfile_macos_counterexample :
    getConfig (prepTargetOS "macos") "configStateDir" ≠ getConfig "linux" "configStateDir" := by
  decide

/-- C1 (amended): after `Prepare`, an empty `target_os` defaults to
`"linux"` and its profile lookups return the (non-empty) linux values,
and a recognized name resolves case-insensitively; but an unrecognized
non-empty `target_os` such as `"macos"` is only lower-cased, and every
profile lookup then returns the empty string (the Go map zero value)
rather than the linux profile's value. -/
theorem osProfile_resolution_amended :
    prepTargetOS "" = "linux"
    ∧ getConfig (prepTargetOS "") "configStateDir" = "/tmp/packer-provisioner-salt"
    ∧ getConfig (prepTargetOS "") "configPillarDir" = "/tmp/packer-provisioner-salt-pillar"
    ∧ getConfig (prepTargetOS "") "configEnvFormat" = "%s='%s' "
    ∧ getCommand (prepTargetOS "") "cmdSaltCall" ≠ ""
    ∧ prepTargetOS "WINDOWS" = "windows"
    ∧ getCommand (prepTargetOS "WINDOWS") "cmdSaltCall" = getCommand "windows" "cmdSaltCall"
    ∧ prepTargetOS "macos" = "macos"
    ∧ getConfig (prepTargetOS "macos") "configStateDir" = ""
    ∧ getConfig (prepTargetOS "macos") "configEnvFormat" = ""
    ∧ getCommand (prepTargetOS "macos") "cmdSaltCall" = ""
    ∧ getCommand (prepTargetOS "macos") "cmdCreateDir" = "" := by
  decide

/-- C2 (code bug): `createDir` and `removeDir` issue the hard-coded
POSIX commands `mkdir -p`/`rm -rf` for every target OS; with
`target_os = "windows"` they do not issue the PowerShell wrapper
commands recorded in `saltCommandMap`, although the repository's
changelog (v0.5.1) records removal of exactly these hard-coded
commands as a bugfix. -/
theorem createDir_ignores_windows_template :
    createDirCommand "C:/Windows/Temp/packer-provisioner-salt" =
      "mkdir -p 'C:/Windows/Temp/packer-provisioner-salt'"
    ∧ createDirCommand "C:/Windows/Temp/packer-provisioner-salt" ≠
      renderCreateDirTemplate "windows" "C:/Windows/Temp/packer-provisioner-salt"
    ∧ removeDirCommand "C:/Windows/Temp/packer-provisioner-salt" =
      "rm -rf 'C:/Windows/Temp/packer-provisioner-salt'"
    ∧ removeDirCommand "C:/Windows/Temp/packer-provisioner-salt" ≠
      renderDeleteDirTemplate "windows" "C:/Windows/Temp/packer-provisioner-salt" := by
  decide

/-- C3 (code bug): with non-empty `pillar_files` and empty
`pillar_tree`, `executeSaltState` selects the pillar-less template: the
generated apply command carries no `--pillar-root` argument and never
mentions the pillar directory, even though the pillar files were
uploaded there; only a non-empty `pillar_tree` selects the
pillar-aware template. -/
theorem pillarFiles_use_pillarless_template :
    saltApplyCommand
      (Config.mk "linux" ["web.sls"] "" "/tmp/packer-provisioner-salt"
        ["data.sls"] "" "/tmp/packer-provisioner-salt-pillar" []) "" "web.sls" =
      "sudo salt-call --local --file-root=/tmp/packer-provisioner-salt state.apply web"
    ∧ occursB "--pillar-root".data
        (saltApplyCommand
          (Config.mk "linux" ["web.sls"] "" "/tmp/packer-provisioner-salt"
            ["data.sls"] "" "/tmp/packer-provisioner-salt-pillar" []) "" "web.sls").data =
        false
    ∧ occursB "--pillar-root".data
        (saltApplyCommand
          (Config.mk "linux" ["web.sls"] "" "/tmp/packer-provisioner-salt"
            [] "/srv/pillar" "/tmp/packer-provisioner-salt-pillar" []) "" "web.sls").data =
        true := by
  decide

end Salt

namespace Salt

/-- C4: `Prepare` rejects state_files+state_tree both set with the
"not both" error and neither set with the "must be specified" error,
accepts exactly-one-set configurations (with the pillar pair also
unset or exactly one set), rejects pillar both-set, and accumulates all
errors of one call into a single list (the concrete configuration at
the end produces three different errors in one multi-error). -/
theorem prepare_validation_spec :
    (∀ (fs : String → FSEntry) (c : Config), c.stateFiles.length ≠ 0 → c.stateTree ≠ "" →
      "either state_files or state_tree can be specified, not both" ∈ prepareErrors fs c)
    ∧ (∀ (fs : String → FSEntry) (c : Config), c.stateFiles.length = 0 → c.stateTree = "" →
      "either state_files or state_tree must be specified" ∈ prepareErrors fs c)
    ∧ (∀ (fs : String → FSEntry) (c : Config), c.pillarFiles.length ≠ 0 → c.pillarTree ≠ "" →
      "either pillar_files or pillar_tree can be specified, not both" ∈ prepareErrors fs c)
    ∧ (∀ (fs : String → FSEntry) (c : Config),
        ((c.stateFiles.length ≠ 0 ∧ c.stateTree = "") ∨
          (c.stateFiles.length = 0 ∧ c.stateTree ≠ "")) →
        ¬(c.pillarFiles.length ≠ 0 ∧ c.pillarTree ≠ "") →
        (∀ e ∈ c.envVars, envVarOk e = true) →
        (∀ f ∈ c.stateFiles, fs f = FSEntry.file) →
        (∀ f ∈ c.pillarFiles, fs f = FSEntry.file) →
        (c.stateTree ≠ "" → fs c.stateTree = FSEntry.dir) →
        (c.pillarTree ≠ "" → fs c.pillarTree = FSEntry.dir) →
        prepareResult fs c = Except.ok ())
    ∧ prepareErrors (fun _ => FSEntry.file)
        (Config.mk "linux" ["a.sls"] "/x" "/sd" [] "" "/pd" ["noequals"]) =
        ["either state_files or state_tree can be specified, not both",
         "environment variable not in format 'key=value': noequals",
         "state_tree: /x must be a directory"] := by
  refine ⟨?_, ?_, ?_, ?_, ?_⟩
  · intro fs c h1 h2
    simp [prepareErrors, h1, h2]
  · intro fs c h1 h2
    simp [prepareErrors, h1, h2]
  · intro fs c h1 h2
    simp [prepareErrors, h1, h2]
  · intro fs c hex hpil henv hsf hpf hst hpt
    have hper : prepareErrors fs c = [] := by
      have c1 : ¬(c.stateFiles.length ≠ 0 ∧ c.stateTree ≠ "") := by
        rintro ⟨ha, hb⟩
        rcases hex with ⟨_, hb'⟩ | ⟨ha', _⟩
        · exact hb hb'
        · exact ha ha'
      have c2 : ¬(c.stateFiles.length = 0 ∧ c.stateTree = "") := by
        rintro ⟨ha, hb⟩
        rcases hex with ⟨ha', _⟩ | ⟨_, hb'⟩
        · exact ha' ha
        · exact hb' hb
      have e4 : c.envVars.filterMap (fun kv =>
          if envVarOk kv then none
          else some ("environment variable not in format 'key=value': " ++ kv)) = [] :=
        List.filterMap_eq_nil_iff.mpr (fun a ha => by rw [if_pos (henv a ha)])
      have e5 : c.stateFiles.filterMap (fun f => validateFileConfig fs f "state_files") = [] :=
        List.filterMap_eq_nil_iff.mpr (fun f hf => by
          unfold validateFileConfig
          rw [hsf f hf])
      have e6 : c.pillarFiles.filterMap (fun f => validateFileConfig fs f "pillar_files") = [] :=
        List.filterMap_eq_nil_iff.mpr (fun f hf => by
          unfold validateFileConfig
          rw [hpf f hf])
      have e7 : (if c.stateTree ≠ "" then (validateDirConfig fs c.stateTree "state_tree").toList
          else []) = [] := by
        by_cases ht : c.stateTree = ""
        · rw [if_neg (fun hn => hn ht)]
        · rw [if_pos ht]
          unfold validateDirConfig
          rw [hst ht]
          rfl
      have e8 : (if c.pillarTree ≠ "" then (validateDirConfig fs c.pillarTree "pillar_tree").toList
          else []) = [] := by
        by_cases ht : c.pillarTree = ""
        · rw [if_neg (fun hn => hn ht)]
        · rw [if_pos ht]
          unfold validateDirConfig
          rw [hpt ht]
          rfl
      unfold prepareErrors
      rw [if_neg c1, if_neg c2, if_neg hpil, e4, e5, e6, e7, e8]
      rfl
    unfold prepareResult
    rw [hper]
    rfl
  · decide

/-- C4 (witness): the "not both" rejection and the acceptance branch
evaluated at concrete configurations. -/
theorem prepare_validation_witness :
    "either state_files or state_tree can be specified, not both" ∈
      prepareErrors (fun _ => FSEntry.file)
        (Config.mk "linux" ["a.sls"] "/x" "/sd" [] "" "/pd" [])
    ∧ prepareResult (fun _ => FSEntry.file)
        (Config.mk "linux" ["a.sls"] "" "/sd" [] "" "/pd" ["A=1"]) = Except.ok () :=
  ⟨prepare_validation_spec.1 _ _ (by decide) (by decide),
   prepare_validation_spec.2.2.2.1 _ _ (by decide) (by decide) (by decide) (by decide)
     (by decide) (by decide) (by decide)⟩

end Salt

namespace Salt

/-- C5 (counterexample): `stateName` removes every occurrence of
`".sls"`, not only a trailing suffix: for `"foo.sls/bar.sls"` the claim
predicts `"foo.sls/bar"` but the code produces `"foo/bar"`. -/
theorem stateName_counterexample :
    stateName "foo.sls/bar.sls" ≠ "foo.sls/bar" := by
  decide

/-- C5 (amended): the state name is the path with every occurrence of
`".sls"` removed; when `".sls"` occurs in the path only as the trailing
suffix the result is the path without that suffix (as the claim
stated), but a `".sls"` occurring elsewhere is removed too; and in
tree/highstate mode (no discrete state files) `executeSalt` performs
exactly one invocation with the empty state name. -/
theorem stateName_amended :
    (∀ s : String, occursB dotSls s.data = false → stateName (s ++ ".sls") = s)
    ∧ stateName "foo.sls/bar.sls" = "foo/bar"
    ∧ (∀ c : Config, c.stateFiles = [] → executeSaltStateArgs c = [""]) := by
  refine ⟨stateName_strip, by decide, ?_⟩
  intro c hc
  unfold executeSaltStateArgs
  rw [hc]
  rfl

/-- C5 (witness): suffix stripping applied at `"site"`, whose only
`".sls"` occurrence is the appended suffix, and the tree-mode
invocation list of a concrete configuration. -/
theorem stateName_witness :
    occursB dotSls "site".data = false
    ∧ stateName ("site" ++ ".sls") = "site"
    ∧ executeSaltStateArgs (Config.mk "linux" [] "/tree" "/sd" [] "" "/pd" []) = [""] :=
  ⟨by decide, stateName_amended.1 "site" (by decide),
   stateName_amended.2.2 _ rfl⟩

/-- C6 (counterexample): split-based decoding does not recover every
well-formed entry list: for the single entry `A=' b` (value `' b`,
a quote followed by a space) the flattened string splits into the
wrong pieces and decoding fails, refuting the unrestricted round-trip
claim. -/
theorem envRoundTrip_counterexample :
    decodeFlattened (createFlattenedEnvVars ["A=' b"]) ≠ some [("A", "' b")] := by
  decide

/-- C6 (amended): reversing the quote-escaping transform recovers every
value exactly (including values with embedded single quotes), and
splitting the flattened string on the format followed by unescaping
recovers exactly the original key/value map (last-wins, key-sorted)
provided no key or escaped value contains the token-terminating
quote-space sequence; without that proviso the round trip can fail
(see the counterexample). -/
theorem envRoundTrip_amended :
    (∀ v : String, unescQuote (escQuote v) = v)
    ∧ (∀ entries : List String,
        (∀ p ∈ escapeEnvVars entries, '=' ∉ p.1.data) →
        (∀ p ∈ escapeEnvVars entries, occursB sepTok (tokenCore p) = false) →
        decodeFlattened (createFlattenedEnvVars entries) = some (rawPairs entries)) := by
  refine ⟨unescQuote_escQuote, ?_⟩
  intro entries hk hs
  rw [decode_createFlattened entries hk hs, unesc_escapeEnvVars]

/-- C6 (witness): the round trip evaluated on two entries, one value
carrying an embedded single quote. -/
theorem envRoundTrip_witness :
    (∀ p ∈ escapeEnvVars ["A=a'b", "B=x"], '=' ∉ p.1.data)
    ∧ (∀ p ∈ escapeEnvVars ["A=a'b", "B=x"], occursB sepTok (tokenCore p) = false)
    ∧ decodeFlattened (createFlattenedEnvVars ["A=a'b", "B=x"]) =
        some (rawPairs ["A=a'b", "B=x"]) :=
  ⟨by decide, by decide, envRoundTrip_amended.2 ["A=a'b", "B=x"] (by decide) (by decide)⟩

/-- C7: the encoder's keys appear in non-decreasing lexicographic order
(character order, which agrees with byte order on UTF-8), the flattened
string is exactly the concatenation, key by key in that order, of the
default two-placeholder `KEY='VALUE' ` format, and the empty entry list
flattens to the empty string. -/
theorem envEncoder_sorted_concat :
    (∀ entries : List String,
      List.Pairwise (fun a b : String => leChars a.data b.data = true)
        ((escapeEnvVars entries).map Prod.fst))
    ∧ (∀ entries : List String,
      (createFlattenedEnvVars entries).data =
        List.flatten ((escapeEnvVars entries).map tokenOf))
    ∧ createFlattenedEnvVars [] = "" := by
  refine ⟨?_, createFlattened_data, rfl⟩
  intro entries
  have hs := List.sorted_insertionSort keyLe (envMapOf entries)
  exact List.pairwise_map.mpr hs

end Salt

namespace Salt

/-- C8: `executeSaltState` interprets the outcome of the apply command
as a three-way split on the exit status: a transport-level error is
propagated unchanged; status 0 succeeds; status 127 produces the
"could not be found" error whose message starts with (and therefore
contains) the attempted command; any other status `n` produces the
generic error whose message contains the decimal rendering of `n`. -/
theorem exitStatus_interpretation :
    (∀ (cmd e : String), interpretSaltExit cmd (Except.error e) = Except.error e)
    ∧ (∀ cmd : String, interpretSaltExit cmd (Except.ok 0) = Except.ok ())
    ∧ (∀ cmd : String,
        interpretSaltExit cmd (Except.ok 127) =
          Except.error (cmd ++ " could not be found, verify that it is available on the path after connecting to the machine")
        ∧ occursB cmd.data
            (cmd ++ " could not be found, verify that it is available on the path after connecting to the machine").data = true)
    ∧ (∀ (cmd : String) (n : Nat), n ≠ 0 → n ≠ 127 →
        interpretSaltExit cmd (Except.ok n) =
          Except.error ("non-zero exit status: " ++ toString n)
        ∧ occursB (toString n).data ("non-zero exit status: " ++ toString n).data = true) := by
  refine ⟨fun _ _ => rfl, fun _ => rfl, ?_, ?_⟩
  · intro cmd
    refine ⟨rfl, ?_⟩
    rw [strData_append]
    have hp : cmd.data.isPrefixOf
        (cmd.data ++ (" could not be found, verify that it is available on the path after connecting to the machine" : String).data) = true := by
      cases hlen : cmd.data.length
      · cases hc : cmd.data with
        | nil => rfl
        | cons c t => rw [hc] at hlen; simp at hlen
      · rw [isPrefixOf_append_le _ _ _ (le_refl _), isPrefixOf_self]
    exact occursB_of_part _ [] _ hp
  · intro cmd n h0 h127
    constructor
    · simp [interpretSaltExit, h0, h127]
    · rw [strData_append]
      exact occursB_of_part _ _ _ (isPrefixOf_self _)

/-- C8 (witness): the generic branch evaluated at status 42: the error
message carries the literal "42". -/
theorem exitStatus_witness :
    interpretSaltExit "salt-call" (Except.ok 42) =
      Except.error ("non-zero exit status: " ++ toString 42)
    ∧ occursB (toString 42).data ("non-zero exit status: " ++ toString 42).data = true :=
  exitStatus_interpretation.2.2.2 "salt-call" 42 (by decide) (by decide)

/-- C9 (counterexample): on a host whose path separator is `/` (the
plugin running on Linux), a backslash-written relative path is not
normalized: the backslashes survive into the remote path, refuting
"always slash-delimited regardless of the local convention". -/
theorem remotePath_counterexample :
    remoteFilePath '/' "/tmp/work" "sub\\dir\\file.sls" ≠ "/tmp/work/sub/dir/file.sls" := by
  decide

/-- C9 (amended): `filepath.Join` + `filepath.ToSlash` normalize the
local OS's separator to forward slashes: on a backslash-separator
(Windows) host `sub\dir\file.sls` under `/tmp/work` yields
`/tmp/work/sub/dir/file.sls`, while on a slash-separator host
backslashes are ordinary path characters and are preserved; paths
already slash-delimited are joined unchanged on either host. -/
theorem remotePath_amended :
    remoteFilePath '\\' "/tmp/work" "sub\\dir\\file.sls" = "/tmp/work/sub/dir/file.sls"
    ∧ remoteFilePath '/' "/tmp/work" "sub\\dir\\file.sls" = "/tmp/work/sub\\dir\\file.sls"
    ∧ remoteFilePath '/' "/tmp/work" "sub/dir/file.sls" = "/tmp/work/sub/dir/file.sls"
    ∧ remoteFilePath '\\' "/tmp/work" "sub/dir/file.sls" = "/tmp/work/sub/dir/file.sls" := by
  decide

end Salt

namespace Salt

/-- C10: duplicate keys in the environment variable list are accepted
by validation (each entry is well-formed on its own); the encoder's
output contains such a key exactly once (count 1 when any entry has
the key, 0 otherwise), bound to the escaped value of the last entry
with that key in input order; uniqueness of keys is never enforced. -/
theorem envDuplicateKeys_lastWins :
    (∀ (entries : List String) (k : String),
      List.count k ((escapeEnvVars entries).map Prod.fst) =
        if ∃ e ∈ entries, splitN2Key e = k then 1 else 0)
    ∧ (∀ (entries : List String) (k : String),
      lookupA (escapeEnvVars entries) k = (lastValFor entries k).map escQuote)
    ∧ (∀ entries : List String, (∀ e ∈ entries, envVarOk e = true) →
      entries.filterMap (fun kv =>
        if envVarOk kv then none
        else some ("environment variable not in format 'key=value': " ++ kv)) = [])
    ∧ prepareResult (fun _ => FSEntry.file)
        (Config.mk "linux" ["a.sls"] "" "/tmp/s" [] "" "/tmp/p" ["A=1", "A=2"]) =
        Except.ok ()
    ∧ escapeEnvVars ["A=1", "A=2"] = [("A", "2")] := by
  refine ⟨?_, ?_, ?_, ?_, by decide⟩
  case refine_4 =>
    have h : prepareErrors (fun _ => FSEntry.file)
        (Config.mk "linux" ["a.sls"] "" "/tmp/s" [] "" "/tmp/p" ["A=1", "A=2"]) = [] := by
      decide
    unfold prepareResult
    rw [h]
    rfl
  · intro entries k
    have hperm : ((escapeEnvVars entries).map Prod.fst).Perm
        ((envMapOf entries).map Prod.fst) :=
      (List.perm_insertionSort keyLe (envMapOf entries)).map Prod.fst
    rw [List.Perm.count_eq hperm k]
    by_cases hex : ∃ e ∈ entries, splitN2Key e = k
    · rw [if_pos hex]
      exact List.count_eq_one_of_mem (nodup_keys_envMapOf entries)
        ((mem_keys_envMapOf entries k).mpr hex)
    · rw [if_neg hex]
      exact List.count_eq_zero.mpr (fun hm => hex ((mem_keys_envMapOf entries k).mp hm))
  · intro entries k
    rw [show escapeEnvVars entries = List.insertionSort keyLe (envMapOf entries) from rfl,
      lookupA_insertionSort (envMapOf entries) (nodup_keys_envMapOf entries) k,
      lookupA_envMapOf]
  · intro entries h
    exact List.filterMap_eq_nil_iff.mpr (fun a ha => by rw [if_pos (h a ha)])

/-- C10 (witness): two well-formed entries with the same key pass the
per-entry validation and contribute no error. -/
theorem envDuplicateKeys_witness :
    (∀ e ∈ ["A=1", "A=2"], envVarOk e = true)
    ∧ (["A=1", "A=2"] : List String).filterMap (fun kv =>
        if envVarOk kv then none
        else some ("environment variable not in format 'key=value': " ++ kv)) = [] :=
  ⟨by decide, envDuplicateKeys_lastWins.2.2.1 ["A=1", "A=2"] (by decide)⟩

end Salt
